import Mathlib

/-!
Verification development for the `ce_bench` identifier-mapping pipeline.

The repository renames SQL table/column identifiers inside query text and
schema definitions:

* `src/datasets/bird/sql_mapper.py` — `SQLMapper` with a *structural*
  strategy (parse with sqlglot, rewrite `Table` / `Column` nodes,
  re-serialize) plus `extract_tables_and_columns` and the batch driver
  `process_bird_csv`.
* `src/datasets/leetcode/sql_mapper.py` — `SQLMapper` whose
  `map_sql_query` always delegates to `_fallback_mapping`, a *textual*
  strategy (regex word-boundary substitution), plus the same batch driver.
* `src/mapping/map.py` — `extract_and_map_schema`, the schema anonymizer.

Modelling conventions:

* Python `dict` (insertion-ordered, last write wins) is modelled as an
  association list `List (String × String)` with `dictInsert` / `dictFind?`.
* Python `str.upper()` is modelled character-wise with `Char.toUpper`
  (ASCII letters; the identifiers handled by this repository are ASCII).
* The SQL parser and serializer are external collaborators (sqlglot); they
  are parameters (`parse : String → Option Expr`,
  `serialize : Expr → Option String`).  `Option` models the Python
  exceptions that the source's `try`/`except` blocks collapse to `None`.
* sqlglot expression trees are modelled by `Expr`: `table` and `column`
  nodes carry the fields the source reads (`node.name`, `node.table`);
  every other node kind is an opaque leaf or an interior combinator node
  (n-ary nodes are represented by nesting binary `node`s).
* Python `re.sub` with a literal pattern (the source always builds patterns
  from `re.escape`d identifier text) is modelled by an explicit left-to-right
  scanner over `List Char`; `\b` is the usual word/non-word boundary test.
  The scanners use `fuel` (an upper bound on the remaining text length) so
  that they are structurally recursive and evaluate inside the kernel; each
  scanning step consumes at least one character, so `fuel = text.length`
  is always sufficient.
-/

/-- Model of Python `s.upper()`: character-wise upper-casing. -/
def upperStr (s : String) : String := ⟨s.data.map Char.toUpper⟩

/-! ## Python `dict` model: insertion-ordered association lists -/

/-- Model of `d[k] = v` on a Python dict: replace the value in place if the
key is present (keeping the key's position), else append. -/
def dictInsert : List (String × String) → String → String → List (String × String)
  | [], k, v => [(k, v)]
  | (k₀, v₀) :: rest, k, v =>
      if k₀ = k then (k₀, v) :: rest else (k₀, v₀) :: dictInsert rest k v

/-- Model of Python dict lookup / `k in d`. -/
def dictFind? : List (String × String) → String → Option String
  | [], _ => none
  | (k₀, v₀) :: rest, k => if k₀ = k then some v₀ else dictFind? rest k

def dictKeys (d : List (String × String)) : List String := d.map Prod.fst

/-- Model of the Python dict comprehension
`{k.upper(): v for k, v in m.items()}` (iterates in insertion order,
last write wins on key collisions after upper-casing). -/
def normalizeKeys (m : List (String × String)) : List (String × String) :=
  m.foldl (fun d p => dictInsert d (upperStr p.1) p.2) []

/-- Model of Python `{**a, **b}`: start from `a`, insert every entry of `b`
in order (entries of `b` overwrite same-keyed entries of `a` in place). -/
def dictMerge (a b : List (String × String)) : List (String × String) :=
  b.foldl (fun d p => dictInsert d p.1 p.2) a

/-! ## sqlglot expression-tree model and the structural mapper
(`src/datasets/bird/sql_mapper.py`) -/

/-- Model of a sqlglot expression tree.  `table` is a `Table` node
(`node.name` is the table's identifier text), `column` is a `Column` node
(`node.name` is the column's identifier text, `tbl` models `node.table`,
the qualifying table text, `""` when the column is unqualified).  All other
node kinds (literals, operators, keywords, …) are opaque `lit` leaves, and
interior nodes of any arity are built by nesting the binary `node`
combinator. -/
inductive Expr where
  | table (name : String) : Expr
  | column (name : String) (tbl : String) : Expr
  | lit (s : String) : Expr
  | node (l r : Expr) : Expr
deriving DecidableEq

/-- Model of sqlglot's `Expression.transform`: apply `f` at every node of
the tree (children first).  The transformation functions used by the source
only rewrite a node's own name fields, never its shape. -/
def Expr.transform (f : Expr → Expr) : Expr → Expr
  | .table n => f (.table n)
  | .column n t => f (.column n t)
  | .lit s => f (.lit s)
  | .node l r => f (.node (l.transform f) (r.transform f))

/-- Model of the `SQLMapper` object: its two (already key-normalized)
mapping dicts. -/
structure SQLMapper where
  table_mapping : List (String × String)
  column_mapping : List (String × String)

/-- Model of `SQLMapper.__init__` (identical in the bird and leetcode
files): upper-case every key, keep the caller's values. -/
def SQLMapper.init (table_mapping column_mapping : List (String × String)) : SQLMapper :=
  ⟨normalizeKeys table_mapping, normalizeKeys column_mapping⟩

/-- Model of `transform_table` in `map_sql_query`
(bird `sql_mapper.py` lines 36–41): on a `Table` node, look up the
upper-cased name in `table_mapping` and replace the name if present. -/
def transform_table (M : SQLMapper) (e : Expr) : Expr :=
  match e with
  | .table n =>
      match dictFind? M.table_mapping (upperStr n) with
      | some v => .table v
      | none => .table n
  | _ => e

/-- Model of `transform_column` (bird `sql_mapper.py` lines 43–55): on a
`Column` node, if it carries a (truthy, i.e. non-empty) qualifying table
name, look that up in `table_mapping`; then look up the column's own name
in `column_mapping`; replace each part that is present. -/
def transform_column (M : SQLMapper) (e : Expr) : Expr :=
  match e with
  | .column n tq =>
      let tq' :=
        if tq ≠ "" then
          match dictFind? M.table_mapping (upperStr tq) with
          | some v => v
          | none => tq
        else tq
      let n' :=
        match dictFind? M.column_mapping (upperStr n) with
        | some v => v
        | none => n
      .column n' tq'
  | _ => e

/-- The tree-rewriting core of `map_sql_query`: the table pass over the
whole tree, then the column pass over the whole tree
(`parsed.transform(transform_table)` then `.transform(transform_column)`). -/
def bird_map_tree (M : SQLMapper) (t : Expr) : Expr :=
  (t.transform (transform_table M)).transform (transform_column M)

/-- Model of the bird `SQLMapper.map_sql_query` (lines 32–63).  `parse` and
`serialize` are the sqlglot collaborators (spec §6); a parse error or an
exception inside serialization is a `none`, which the source's
`except: return None` collapses to the single failure outcome.  The
`pretty` flag only selects a formatting mode of `serialize` and has no
semantic effect, so it is absorbed into the `serialize` parameter. -/
def map_sql_query (parse : String → Option Expr) (serialize : Expr → Option String)
    (M : SQLMapper) (sql_query : String) : Option String :=
  match parse sql_query with
  | none => none
  | some parsed => serialize (bird_map_tree M parsed)

/-! ### `extract_tables_and_columns` (bird `sql_mapper.py` lines 14–30) -/

/-- Raw (not yet upper-cased) names of all `Table` nodes, in tree order:
models iterating `parsed.find_all(Table)`. -/
def Expr.rawTables : Expr → List String
  | .table n => [n]
  | .column _ _ => []
  | .lit _ => []
  | .node l r => l.rawTables ++ r.rawTables

/-- Raw names of all `Column` nodes, in tree order: models iterating
`parsed.find_all(Column)`. -/
def Expr.rawColumns : Expr → List String
  | .table _ => []
  | .column n _ => [n]
  | .lit _ => []
  | .node l r => l.rawColumns ++ r.rawColumns

/-- Model of `extract_tables_and_columns`: parse once; on success collect
the upper-cased name of every `Table` / `Column` node into two Python
sets (deduplicated, here `Finset String`); on any failure return two
empty sets. -/
def extract_tables_and_columns (parse : String → Option Expr) (sql_query : String) :
    Finset String × Finset String :=
  match parse sql_query with
  | none => (∅, ∅)
  | some parsed =>
      ((parsed.rawTables.map upperStr).toFinset, (parsed.rawColumns.map upperStr).toFinset)

/-- A `Table` node with name `n` occurs somewhere in the tree (any depth:
subqueries, joins and nested expressions are all `node` nestings). -/
inductive OccursTable : String → Expr → Prop where
  | here (n : String) : OccursTable n (.table n)
  | left {n : String} {l r : Expr} : OccursTable n l → OccursTable n (.node l r)
  | right {n : String} {l r : Expr} : OccursTable n r → OccursTable n (.node l r)

/-- A `Column` node with name `n` (any qualifier) occurs somewhere in the
tree. -/
inductive OccursColumn : String → Expr → Prop where
  | here (n tq : String) : OccursColumn n (.column n tq)
  | left {n : String} {l r : Expr} : OccursColumn n l → OccursColumn n (.node l r)
  | right {n : String} {l r : Expr} : OccursColumn n r → OccursColumn n (.node l r)

/-! ## Model of the `re.sub` calls used by the textual fallback and the
schema anonymizer.

All patterns built by the source are `re.escape`d identifier text,
optionally wrapped in `\b…\b` or in backtick / double-quote characters, so
a pattern is a literal character sequence plus (for `\b`) word-boundary
side conditions.  `re.sub` replaces the non-overlapping occurrences
scanning left to right over the *original* text, which the scanners below
implement directly.  `fuel` is an upper bound on the remaining text length
(each step consumes at least one character when the pattern is non-empty),
keeping the definitions structurally recursive so the kernel can evaluate
them. -/

/-- Python regex word character (`\w`), ASCII subset. -/
def isWordChar (c : Char) : Bool := c.isAlphanum || c == '_'

/-- Word-ness of an optional character; out-of-text counts as non-word. -/
def wordB : Option Char → Bool
  | none => false
  | some c => isWordChar c

/-- Single-character pattern match; `ci` is `re.IGNORECASE` (ASCII). -/
def charMatch (ci : Bool) (a b : Char) : Bool :=
  if ci then a.toUpper == b.toUpper else a == b

/-- Does `text` start with the literal pattern `key` (under `ci`)? -/
def matchPref (ci : Bool) : List Char → List Char → Bool
  | [], _ => true
  | _ :: _, [] => false
  | k :: ks, c :: cs => charMatch ci k c && matchPref ci ks cs

/-- Scanner for `re.sub(rf'\b{re.escape(key)}\b', repl, text)`: at each
position, replace if the pattern matches there and both ends sit on a
word/non-word boundary; otherwise advance one character.  `prev` is the
original text character before the current position (`none` at the start). -/
def substWBGo (ci : Bool) (key repl : List Char) : Nat → Option Char → List Char → List Char
  | _, _, [] => []
  | 0, _, text => text
  | fuel + 1, prev, c :: rest =>
      let seg := (c :: rest).take key.length
      let after := (c :: rest).drop key.length
      if matchPref ci key (c :: rest) && (wordB prev != wordB (some c))
          && (wordB seg.getLast? != wordB after.head?) then
        repl ++ substWBGo ci key repl fuel seg.getLast? after
      else
        c :: substWBGo ci key repl fuel (some c) rest

/-- Model of the word-boundary substitution call
`re.sub` with pattern `\b<key>\b` over character lists.
The identifier keys fed to this by the source are never empty;
for an empty key the model leaves the text unchanged. -/
def substWB (ci : Bool) (key repl : String) (text : List Char) : List Char :=
  match key.data with
  | [] => text
  | _ :: _ => substWBGo ci key.data repl.data text.length none text

/-- Scanner for `re.sub` with a plain literal pattern (no `\b`): the
backtick- and double-quote-wrapped variants of the fallback strategy. -/
def substLitGo (ci : Bool) (pat repl : List Char) : Nat → List Char → List Char
  | _, [] => []
  | 0, text => text
  | fuel + 1, c :: rest =>
      if matchPref ci pat (c :: rest) then
        repl ++ substLitGo ci pat repl fuel ((c :: rest).drop pat.length)
      else
        c :: substLitGo ci pat repl fuel rest

def substLit (ci : Bool) (pat repl : List Char) (text : List Char) : List Char :=
  match pat with
  | [] => text
  | _ :: _ => substLitGo ci pat repl text.length text

/-- The backtick character (U+0060). -/
def backquoteChar : Char := Char.ofNat 96

/-- Model of one iteration of the entry loops in `_fallback_mapping`
(leetcode `sql_mapper.py` lines 25–33 and 37–45): for the entry
`(original, mapped)` apply the three patterns
`\boriginal\b`, `` `original` ``, `"original"` in order, case-insensitively,
each over the already-partially-substituted text.  The replacement is
inserted verbatim (the mapped values are plain identifiers, so the
`re.sub` replacement-template escapes never fire). -/
def applyEntry (text : List Char) (e : String × String) : List Char :=
  let t1 := substWB true e.1 e.2 text
  let t2 := substLit true (backquoteChar :: e.1.data ++ [backquoteChar]) e.2.data t1
  substLit true ('"' :: e.1.data ++ ['"']) e.2.data t2

/-- Stable insertion step for
`sorted(items, key=lambda x: len(x[0]), reverse=True)`: an element moves
past strictly longer keys only, so equal-length entries keep their
original relative order (Python's sort is stable). -/
def insertLenDesc (p : String × String) : List (String × String) → List (String × String)
  | [] => [p]
  | q :: rest => if q.1.length > p.1.length then q :: insertLenDesc p rest else p :: q :: rest

def sortLenDesc (l : List (String × String)) : List (String × String) :=
  l.foldr insertLenDesc []

/-- Model of the leetcode `SQLMapper._fallback_mapping` (lines 16–50):
substitute all table entries (longest original first), then all column
entries (longest original first), each entry via its three patterns; the
source's `except: return None` is unreachable for identifier-shaped
mapping values, so the result is always `some`. -/
def fallback_mapping (M : SQLMapper) (sql_query : String) : Option String :=
  let afterTables := (sortLenDesc M.table_mapping).foldl applyEntry sql_query.data
  let afterColumns := (sortLenDesc M.column_mapping).foldl applyEntry afterTables
  some ⟨afterColumns⟩

/-- Model of the leetcode `SQLMapper.map_sql_query` (lines 12–14):
"Always use fallback mapping for reliability" — it never parses. -/
def leet_map_sql_query (M : SQLMapper) (sql_query : String) : Option String :=
  fallback_mapping M sql_query

/-! ## Batch driver (`process_bird_csv`, identical shape in both dataset
files) -/

/-- One dataset row: database id plus the two query fields (`none` models
a NaN/absent CSV cell). -/
structure Row where
  dbid : String
  q1 : Option String
  q2 : Option String

/-- A processed row: the original fields plus the derived
`q1_mapped`/`q2_mapped` columns (initialized to `None` and only written
inside `if q1:` / `if q2:`). -/
structure MappedRow where
  dbid : String
  q1 : Option String
  q2 : Option String
  q1_mapped : Option String
  q2_mapped : Option String

/-- The persisted per-database mapping set (`schemas.json`): database id →
(`mapping.tables`, `mapping.columns`). -/
abbrev Schemas : Type := List (String × (List (String × String) × List (String × String)))

def assocFind? {α : Type} : List (String × α) → String → Option α
  | [], _ => none
  | (k₀, v₀) :: rest, k => if k₀ = k then some v₀ else assocFind? rest k

/-- Model of the per-row mapper construction in `process_bird_csv`
(bird lines 102–108, leetcode lines 90–96): look the database id up in the
schemas data; if absent, construct an empty mapper. -/
def rowSQLMapper (schemas_data : Schemas) (dbid : String) : SQLMapper :=
  match assocFind? schemas_data dbid with
  | some m => SQLMapper.init m.1 m.2
  | none => SQLMapper.init [] []

/-- Model of the `if q1: df.at[idx, 'q1_mapped'] = mapper.map_sql_query(q1)`
block: an absent or empty (falsy) source field leaves the derived field at
its `None` initialization. -/
def mapField (mq : String → Option String) (q : Option String) : Option String :=
  match q with
  | some s => if s ≠ "" then mq s else none
  | none => none

/-- One loop iteration of the bird `process_bird_csv` (lines 96–118). -/
def process_row_bird (parse : String → Option Expr) (serialize : Expr → Option String)
    (schemas_data : Schemas) (r : Row) : MappedRow :=
  let mapper := rowSQLMapper schemas_data r.dbid
  ⟨r.dbid, r.q1, r.q2,
   mapField (map_sql_query parse serialize mapper) r.q1,
   mapField (map_sql_query parse serialize mapper) r.q2⟩

/-- The bird `process_bird_csv` row loop: a sequential, row-independent
scan (the progress print every 1000 rows is observability only). -/
def process_bird_csv (parse : String → Option Expr) (serialize : Expr → Option String)
    (schemas_data : Schemas) (rows : List Row) : List MappedRow :=
  rows.map (process_row_bird parse serialize schemas_data)

/-- One loop iteration of the leetcode file's `process_bird_csv`
(lines 83–106); the only difference is the mapper used. -/
def process_row_leet (schemas_data : Schemas) (r : Row) : MappedRow :=
  let mapper := rowSQLMapper schemas_data r.dbid
  ⟨r.dbid, r.q1, r.q2,
   mapField (leet_map_sql_query mapper) r.q1,
   mapField (leet_map_sql_query mapper) r.q2⟩

/-- The leetcode file's `process_bird_csv` row loop. -/
def leet_process_bird_csv (schemas_data : Schemas) (rows : List Row) : List MappedRow :=
  rows.map (process_row_leet schemas_data)

/-! ## Schema anonymizer (`src/mapping/map.py`, `extract_and_map_schema`) -/

/-- One expression inside a `CREATE TABLE` statement's body: either a
`ColumnDef` (carrying the column's name) or anything else (constraints,
foreign keys, …), which the `isinstance(expr, ColumnDef)` test skips. -/
inductive SchemaExpr where
  | columnDef (name : String) : SchemaExpr
  | otherExpr : SchemaExpr

/-- One parsed top-level schema statement, as produced by the sqlglot
collaborator.  For a `CREATE TABLE` statement, `name` is the table name as
the source extracts it (direct structural accessor, nested accessor, or
first-token-of-text fallback — a collaborator access, resolved here), and
`exprs` are the statements of its body in declared order.  Any other
statement kind (index, trigger, view, non-TABLE create, …) is skipped. -/
inductive Stmt where
  | createTable (name : String) (exprs : List SchemaExpr) : Stmt
  | otherStmt : Stmt

/-- The scan state of `extract_and_map_schema`: the two discovery-order
mappings and the two dummy-name counters (both starting at 1, the column
counter shared across all tables of the schema). -/
structure AnonState where
  table_mapping : List (String × String)
  column_mapping : List (String × String)
  table_counter : Nat
  column_counter : Nat

/-- Model of the column-definition step (map.py lines 52–60): a non-empty
column name not previously seen (exact string match) is appended with the
next `c<N>` dummy name and the shared column counter advances. -/
def scanColumnDef (st : AnonState) (e : SchemaExpr) : AnonState :=
  match e with
  | .columnDef name =>
      if name ≠ "" ∧ dictFind? st.column_mapping name = none then
        { st with
          column_mapping := st.column_mapping ++ [(name, "c" ++ toString st.column_counter)],
          column_counter := st.column_counter + 1 }
      else st
  | .otherExpr => st

/-- Model of the per-statement step (map.py lines 29–60): for a
`CREATE TABLE` statement, first the table-name step (`t<N>` dummy names,
exact-match dedup, truthiness check on the name), then the column
definitions in order. -/
def scanStmt (st : AnonState) (s : Stmt) : AnonState :=
  match s with
  | .createTable name exprs =>
      let st1 :=
        if name ≠ "" ∧ dictFind? st.table_mapping name = none then
          { st with
            table_mapping := st.table_mapping ++ [(name, "t" ++ toString st.table_counter)],
            table_counter := st.table_counter + 1 }
        else st
      exprs.foldl scanColumnDef st1
  | .otherStmt => st

/-- The full discovery scan over the parsed statements, counters starting
at 1. -/
def anonScan (stmts : List Stmt) : AnonState :=
  stmts.foldl scanStmt ⟨[], [], 1, 1⟩

/-- One substitution pass of the schema anonymizer (map.py lines 69–78):
case-sensitive word-boundary `re.sub` of every entry, longest original
name first. -/
def schemaSubstPass (entries : List (String × String)) (t : List Char) : List Char :=
  (sortLenDesc entries).foldl (fun acc p => substWB false p.1 p.2 acc) t

/-- Model of `extract_and_map_schema` (map.py lines 6–80).  `stmts` is the
sqlglot collaborator's parse of `schema_sql`.  After the scan, the merged
mapping is `{**table_mapping, **column_mapping}` and the dummy schema is
produced by substituting over the *original* schema text: every table name
first, then every column name. -/
def extract_and_map_schema (stmts : List Stmt) (schema_sql : String) :
    String × List (String × String) :=
  let st := anonScan stmts
  let mapping_dict := dictMerge st.table_mapping st.column_mapping
  let afterTables := schemaSubstPass st.table_mapping schema_sql.data
  let afterColumns := schemaSubstPass st.column_mapping afterTables
  (⟨afterColumns⟩, mapping_dict)

/-! ## Lemmas about the substitution scanners -/

/-- Executable exact (case-sensitive) occurrence test for a contiguous
character segment. -/
def containsSegB (k : List Char) : List Char → Bool
  | [] => matchPref false k []
  | c :: rest => matchPref false k (c :: rest) || containsSegB k rest

/-! ## Specification-side view of the anonymizer scan: first-occurrence
order and counter-generated dummy names -/

/-- The distinct elements of a list in first-occurrence order. -/
def firstOccurs : List String → List String
  | [] => []
  | a :: l => a :: (firstOccurs l).filter (fun b => b ≠ a)

/-- Consecutive counter-generated dummy names:
`dummyNames p [n₁, n₂, …] k = [(n₁, p ++ k), (n₂, p ++ (k+1)), …]`. -/
def dummyNames (p : String) : List String → Nat → List (String × String)
  | [], _ => []
  | n :: rest, k => (n, p ++ toString k) :: dummyNames p rest (k + 1)

/-- The (truthy) column name a body expression contributes. -/
def colCand : SchemaExpr → List String
  | .columnDef n => if n = "" then [] else [n]
  | .otherExpr => []

/-- The (truthy-named) column-definition names a statement contributes, in
declared order. -/
def stmtCols : Stmt → List String
  | .createTable _ es => (es.map colCand).flatten
  | .otherStmt => []

/-- The (truthy) table name a statement contributes. -/
def stmtTabs : Stmt → List String
  | .createTable n _ => if n = "" then [] else [n]
  | .otherStmt => []

def allCols (stmts : List Stmt) : List String := (stmts.map stmtCols).flatten

def allTabs (stmts : List Stmt) : List String := (stmts.map stmtTabs).flatten

/-- The scan state determined by the lists of table / column name
candidates seen so far. -/
def mkAnonState (pt pc : List String) : AnonState :=
  ⟨dummyNames "t" (firstOccurs pt) 1, dummyNames "c" (firstOccurs pc) 1,
   (firstOccurs pt).length + 1, (firstOccurs pc).length + 1⟩

/-! ## Concrete collaborator instances and fixtures used by witnesses and
counterexamples -/

/-- The parse tree of `select * from t` in the model: a `SELECT *` leaf
combined with the `Table` node `t`. -/
def demoParseTree : Expr := .node (.lit "SELECT *") (.table "t")

/-- A minimal instance of the parser collaborator (spec §6): it accepts the
single statement `select * from t` and rejects everything else. -/
def demoParse : String → Option Expr :=
  fun s => if s = "select * from t" then some demoParseTree else none

/-- A minimal instance of the serializer collaborator.  Like sqlglot's
generator it emits canonical upper-case keywords, so serializing a parse
tree is not the textual identity on the original statement (sqlglot's
collaborator contract promises no textual round-trip). -/
def demoSerialize : Expr → Option String :=
  fun e =>
    match e with
    | .node (.lit "SELECT *") (.table n) => some ("SELECT * FROM " ++ n)
    | _ => none

/-- The parsed form of the spec's example schema
`CREATE TABLE CHESTS (CHEST_ID INT, APPLE_COUNT INT);
 CREATE TABLE BOXES (BOX_ID INT, CHEST_ID INT);`. -/
def demoSchemaStmts : List Stmt :=
  [.createTable "CHESTS" [.columnDef "CHEST_ID", .columnDef "APPLE_COUNT"],
   .createTable "BOXES" [.columnDef "BOX_ID", .columnDef "CHEST_ID"]]

def demoSchemaText : String :=
  "CREATE TABLE CHESTS (CHEST_ID INT, APPLE_COUNT INT); CREATE TABLE BOXES (BOX_ID INT, CHEST_ID INT);"

/-- Lookup with identity default: the value a name is rewritten to by one
mapping dict (upper-cased key lookup; the name itself when absent). -/
def lookupOr (d : List (String × String)) (s : String) : String :=
  match dictFind? d (upperStr s) with
  | some v => v
  | none => s

/-! ## Case normalization: model of Python `str.upper()` on ASCII text -/

/-- Round-trip of `Char.ofNat` with `Char.toNat` for valid code points
below the surrogate range; helper for reasoning about `Char.toUpper`. -/
theorem toNat_ofNat_valid (n : Nat) (h : n < 0xd800) : (Char.ofNat n).toNat = n := by
  rw [Char.ofNat, dif_pos (Or.inl h)]
  simp [Char.ofNatAux, Char.toNat, UInt32.ofNat', UInt32.toNat, BitVec.toNat_ofNatLt]

theorem toUpper_idem (c : Char) : c.toUpper.toUpper = c.toUpper := by
  unfold Char.toUpper
  by_cases h : c.toNat ≥ 97 ∧ c.toNat ≤ 122
  · rw [if_pos h]
    have hv : c.toNat - 32 < 0xd800 := by omega
    rw [if_neg]
    rw [toNat_ofNat_valid _ hv]
    omega
  · rw [if_neg h, if_neg h]

theorem upperStr_idem (s : String) : upperStr (upperStr s) = upperStr s := by
  unfold upperStr
  simp [List.map_map, Function.comp_def, toUpper_idem]

theorem dictFind?_insert (d : List (String × String)) (k v k' : String) :
    dictFind? (dictInsert d k v) k' = if k = k' then some v else dictFind? d k' := by
  induction d with
  | nil => simp [dictInsert, dictFind?]
  | cons p rest ih =>
      obtain ⟨k₀, v₀⟩ := p
      by_cases h0 : k₀ = k
      · subst h0
        simp only [dictInsert, if_pos rfl]
        by_cases h1 : k₀ = k'
        · subst h1
          simp [dictFind?]
        · have hne : ¬ k₀ = k' := h1
          simp [dictFind?, hne]
      · simp only [dictInsert, if_neg h0]
        by_cases h1 : k₀ = k'
        · subst h1
          have hne : ¬ k = k₀ := fun h => h0 h.symm
          simp [dictFind?, hne]
        · simp [dictFind?, h1, ih]

theorem dictKeys_insert (d : List (String × String)) (k v : String) :
    dictKeys (dictInsert d k v) = if k ∈ dictKeys d then dictKeys d else dictKeys d ++ [k] := by
  induction d with
  | nil => simp [dictInsert, dictKeys]
  | cons p rest ih =>
      obtain ⟨k₀, v₀⟩ := p
      by_cases h0 : k₀ = k
      · subst h0
        simp [dictInsert, dictKeys]
      · have hne : ¬ k = k₀ := fun h => h0 h.symm
        simp only [dictInsert, if_neg h0, dictKeys, List.map_cons] at ih ⊢
        rw [ih]
        by_cases hm : k ∈ List.map Prod.fst rest
        · simp [hm, hne]
        · simp [hm, hne]

theorem dictKeys_nodup_insert (d : List (String × String)) (k v : String)
    (h : (dictKeys d).Nodup) : (dictKeys (dictInsert d k v)).Nodup := by
  rw [dictKeys_insert]
  by_cases hm : k ∈ dictKeys d
  · simpa [hm]
  · simp only [hm, if_false]
    simpa [List.nodup_append] using ⟨h, hm⟩

theorem dictFind?_eq_none_iff (d : List (String × String)) (k : String) :
    dictFind? d k = none ↔ k ∉ dictKeys d := by
  induction d with
  | nil => simp [dictFind?, dictKeys]
  | cons p rest ih =>
      obtain ⟨k₀, v₀⟩ := p
      by_cases h : k₀ = k
      · subst h
        simp [dictFind?, dictKeys]
      · have hne : ¬ k = k₀ := fun hh => h hh.symm
        simp [dictFind?, dictKeys, h, hne, ih]

theorem dictFind?_mem (d : List (String × String)) (k v : String)
    (h : dictFind? d k = some v) : (k, v) ∈ d := by
  induction d with
  | nil => simp [dictFind?] at h
  | cons p rest ih =>
      obtain ⟨k₀, v₀⟩ := p
      by_cases h0 : k₀ = k
      · subst h0
        simp [dictFind?] at h
        simp [h]
      · simp [dictFind?, h0] at h
        exact List.mem_cons_of_mem _ (ih h)

theorem mem_iff_dictFind? (d : List (String × String)) (k v : String)
    (h : (dictKeys d).Nodup) : (k, v) ∈ d ↔ dictFind? d k = some v := by
  induction d with
  | nil => simp [dictFind?]
  | cons p rest ih =>
      obtain ⟨k₀, v₀⟩ := p
      have hnd : (dictKeys rest).Nodup := (List.nodup_cons.mp h).2
      have hnm : k₀ ∉ dictKeys rest := (List.nodup_cons.mp h).1
      by_cases h0 : k₀ = k
      · subst h0
        have hnr : (k₀, v) ∉ rest := fun hmem =>
          hnm (by simpa [dictKeys] using List.mem_map_of_mem Prod.fst hmem)
        simp [dictFind?, hnr, Prod.ext_iff]
        tauto
      · have hne : ¬ (k = k₀ ∧ v = v₀) := fun hh => h0 hh.1.symm
        simp [dictFind?, h0, ih hnd, Prod.ext_iff, hne]

theorem mem_rawTables_iff (t : Expr) (n : String) :
    n ∈ t.rawTables ↔ OccursTable n t := by
  induction t with
  | table m =>
      simp [Expr.rawTables]
      constructor
      · rintro rfl
        exact OccursTable.here _
      · rintro ⟨⟩
        rfl
  | column m tq =>
      simp [Expr.rawTables]
      rintro ⟨⟩
  | lit s =>
      simp [Expr.rawTables]
      rintro ⟨⟩
  | node l r ihl ihr =>
      simp [Expr.rawTables, ihl, ihr]
      constructor
      · rintro (h | h)
        · exact OccursTable.left h
        · exact OccursTable.right h
      · rintro (_ | h | h)
        · exact Or.inl (by assumption)
        · exact Or.inr (by assumption)

theorem mem_rawColumns_iff (t : Expr) (n : String) :
    n ∈ t.rawColumns ↔ OccursColumn n t := by
  induction t with
  | table m =>
      simp [Expr.rawColumns]
      rintro ⟨⟩
  | column m tq =>
      simp [Expr.rawColumns]
      constructor
      · rintro rfl
        exact OccursColumn.here _ tq
      · rintro ⟨⟩
        rfl
  | lit s =>
      simp [Expr.rawColumns]
      rintro ⟨⟩
  | node l r ihl ihr =>
      simp [Expr.rawColumns, ihl, ihr]
      constructor
      · rintro (h | h)
        · exact OccursColumn.left h
        · exact OccursColumn.right h
      · rintro (_ | h | h)
        · exact Or.inl (by assumption)
        · exact Or.inr (by assumption)

/-! ## Lemmas about the length-descending stable sort -/

theorem mem_insertLenDesc (p x : String × String) (l : List (String × String)) :
    x ∈ insertLenDesc p l ↔ x = p ∨ x ∈ l := by
  induction l with
  | nil => simp [insertLenDesc]
  | cons q rest ih =>
      by_cases h : q.1.length > p.1.length
      · simp [insertLenDesc, h, ih]
        tauto
      · simp [insertLenDesc, h]

theorem insertLenDesc_perm (p : String × String) (l : List (String × String)) :
    (insertLenDesc p l).Perm (p :: l) := by
  induction l with
  | nil => simp [insertLenDesc]
  | cons q rest ih =>
      by_cases h : q.1.length > p.1.length
      · simp only [insertLenDesc, if_pos h]
        exact (ih.cons q).trans (List.Perm.swap p q rest)
      · simp [insertLenDesc, h]

theorem sortLenDesc_perm (l : List (String × String)) : (sortLenDesc l).Perm l := by
  induction l with
  | nil => simp [sortLenDesc]
  | cons p rest ih =>
      have : sortLenDesc (p :: rest) = insertLenDesc p (sortLenDesc rest) := rfl
      rw [this]
      exact (insertLenDesc_perm p (sortLenDesc rest)).trans (ih.cons p)

theorem insertLenDesc_pairwise (p : String × String) (l : List (String × String))
    (h : List.Pairwise (fun a b => b.1.length ≤ a.1.length) l) :
    List.Pairwise (fun a b => b.1.length ≤ a.1.length) (insertLenDesc p l) := by
  induction l with
  | nil => simp [insertLenDesc]
  | cons q rest ih =>
      rcases List.pairwise_cons.mp h with ⟨hq, hrest⟩
      by_cases hc : q.1.length > p.1.length
      · simp only [insertLenDesc, if_pos hc]
        refine List.pairwise_cons.mpr ⟨?_, ih hrest⟩
        intro x hx
        rcases (mem_insertLenDesc p x rest).mp hx with rfl | hx
        · exact Nat.le_of_lt hc
        · exact hq x hx
      · simp only [insertLenDesc, if_neg hc]
        refine List.pairwise_cons.mpr ⟨?_, h⟩
        intro x hx
        rcases List.mem_cons.mp hx with rfl | hx
        · exact Nat.le_of_not_lt hc
        · exact Nat.le_trans (hq x hx) (Nat.le_of_not_lt hc)

theorem sortLenDesc_pairwise (l : List (String × String)) :
    List.Pairwise (fun a b => b.1.length ≤ a.1.length) (sortLenDesc l) := by
  induction l with
  | nil => simp [sortLenDesc]
  | cons p rest ih => exact insertLenDesc_pairwise p (sortLenDesc rest) ih

theorem matchPref_false_start (k t : List Char) (h : matchPref false k t = true) :
    ∃ r, t = k ++ r := by
  induction k generalizing t with
  | nil => exact ⟨t, rfl⟩
  | cons kc ks ih =>
      cases t with
      | nil => simp [matchPref] at h
      | cons c cs =>
          simp only [matchPref, charMatch, if_neg Bool.false_ne_true, Bool.and_eq_true,
            beq_iff_eq] at h
          obtain ⟨rfl, h2⟩ := h
          obtain ⟨r, rfl⟩ := ih cs h2
          exact ⟨r, rfl⟩

theorem matchPref_false_self (k r : List Char) : matchPref false k (k ++ r) = true := by
  induction k with
  | nil => simp [matchPref]
  | cons kc ks ih => simp [matchPref, charMatch, ih]

theorem containsSeg_iff (k t : List Char) :
    (∃ a b, t = a ++ k ++ b) ↔ containsSegB k t = true := by
  induction t with
  | nil =>
      constructor
      · rintro ⟨a, b, hab⟩
        obtain ⟨hak, rfl⟩ := List.append_eq_nil.mp hab.symm
        obtain ⟨rfl, rfl⟩ := List.append_eq_nil.mp hak
        simp [containsSegB, matchPref]
      · intro h
        cases k with
        | nil => exact ⟨[], [], rfl⟩
        | cons kc ks => simp [containsSegB, matchPref] at h
  | cons c cs ih =>
      constructor
      · rintro ⟨a, b, hab⟩
        cases a with
        | nil =>
            simp only [List.nil_append] at hab
            simp [containsSegB, hab, matchPref_false_self]
        | cons a0 as =>
            simp only [List.cons_append] at hab
            obtain ⟨rfl, hcs⟩ := List.cons_eq_cons.mp hab
            simp only [containsSegB, Bool.or_eq_true]
            exact Or.inr (ih.mp ⟨as, b, hcs⟩)
      · intro h
        rcases (by simpa [containsSegB, Bool.or_eq_true] using h :
            matchPref false k (c :: cs) = true ∨ containsSegB k cs = true) with h1 | h1
        · obtain ⟨r, hr⟩ := matchPref_false_start k (c :: cs) h1
          exact ⟨[], r, by simpa using hr⟩
        · obtain ⟨a, b, rfl⟩ := ih.mpr h1
          exact ⟨c :: a, b, by simp⟩

theorem substWBGo_no_occ (key repl : List Char) (fuel : Nat) :
    ∀ (text : List Char) (prev : Option Char), (¬ ∃ a b, text = a ++ key ++ b) →
      substWBGo false key repl fuel prev text = text := by
  induction fuel with
  | zero =>
      intro text prev _
      cases text <;> rfl
  | succ fuel ih =>
      intro text prev hno
      cases text with
      | nil => rfl
      | cons c rest =>
          have hm : matchPref false key (c :: rest) = false := by
            cases hq : matchPref false key (c :: rest)
            · rfl
            · obtain ⟨r, hr⟩ := matchPref_false_start key (c :: rest) hq
              exact absurd ⟨[], r, by simpa using hr⟩ hno
          have hrest : ¬ ∃ a b, rest = a ++ key ++ b := by
            rintro ⟨a, b, rfl⟩
            exact hno ⟨c :: a, b, by simp⟩
          simp [substWBGo, hm, ih rest (some c) hrest]

/-- A text with no exact-case occurrence of `key` as a contiguous segment is
left unchanged by the case-sensitive word-boundary substitution: a
discovered name appearing only in different case is never replaced. -/
theorem substWB_no_occ (key repl : String) (t : List Char)
    (h : ¬ ∃ a b, t = a ++ key.data ++ b) : substWB false key repl t = t := by
  unfold substWB
  split
  · rfl
  · exact substWBGo_no_occ key.data repl.data t.length t none h

/-! ## Lemmas about the structural two-pass rewrite -/

theorem transform_table_column (M : SQLMapper) (n tq : String) :
    transform_table M (.column n tq) = .column n tq := rfl

theorem transform_table_lit (M : SQLMapper) (s : String) :
    transform_table M (.lit s) = .lit s := rfl

theorem transform_table_node (M : SQLMapper) (l r : Expr) :
    transform_table M (.node l r) = .node l r := rfl

theorem transform_column_table (M : SQLMapper) (n : String) :
    transform_column M (.table n) = .table n := rfl

theorem transform_column_lit (M : SQLMapper) (s : String) :
    transform_column M (.lit s) = .lit s := rfl

theorem transform_column_node (M : SQLMapper) (l r : Expr) :
    transform_column M (.node l r) = .node l r := rfl

/-- The table node's rewrite always yields a table node. -/
theorem transform_table_is_table (M : SQLMapper) (n : String) :
    ∃ m, transform_table M (.table n) = .table m := by
  cases h : dictFind? M.table_mapping (upperStr n) with
  | none => exact ⟨n, by simp [transform_table, h]⟩
  | some v => exact ⟨v, by simp [transform_table, h]⟩

/-- Pass fusion: running the table pass over the whole tree and then the
column pass over the whole tree is the same as a single pass applying the
column action after the table action at each node.  In particular the
column pass's qualifier lookups read the node fields the table pass left
behind, and the table pass never touches `Column` nodes, so qualifier
lookups always see the original qualifier name. -/
theorem bird_map_tree_fused (M : SQLMapper) (t : Expr) :
    bird_map_tree M t = t.transform (fun e => transform_column M (transform_table M e)) := by
  unfold bird_map_tree
  induction t with
  | table n =>
      obtain ⟨m, hm⟩ := transform_table_is_table M n
      simp [Expr.transform, hm]
  | column n tq => simp [Expr.transform, transform_table_column]
  | lit s => simp [Expr.transform, transform_table_lit]
  | node l r ihl ihr =>
      simp [Expr.transform, transform_table_node, transform_column_node, ihl, ihr]

/-- A transformation that fixes every node leaves the tree unchanged. -/
theorem transform_id (f : Expr → Expr) (hf : ∀ e, f e = e) (t : Expr) :
    t.transform f = t := by
  induction t with
  | table n => simp [Expr.transform, hf]
  | column n tq => simp [Expr.transform, hf]
  | lit s => simp [Expr.transform, hf]
  | node l r ihl ihr => simp [Expr.transform, ihl, ihr, hf]

theorem emptyMapper_table_mapping : (SQLMapper.init [] []).table_mapping = [] := rfl

theorem transform_table_empty (e : Expr) : transform_table (SQLMapper.init [] []) e = e := by
  cases e <;> rfl

theorem transform_column_empty (e : Expr) : transform_column (SQLMapper.init [] []) e = e := by
  cases e with
  | column n tq =>
      simp only [transform_column, SQLMapper.init, normalizeKeys, List.foldl_nil, dictFind?]
      split <;> rfl
  | table n => rfl
  | lit s => rfl
  | node l r => rfl

/-- With an empty mapper (the missing-database case of the batch driver) no
substitution occurs: the parse tree passes through both rewrite passes
unchanged. -/
theorem bird_map_tree_empty (t : Expr) : bird_map_tree (SQLMapper.init [] []) t = t := by
  unfold bird_map_tree
  rw [transform_id _ (transform_table_empty), transform_id _ (transform_column_empty)]

theorem mem_firstOccurs (l : List String) (n : String) : n ∈ firstOccurs l ↔ n ∈ l := by
  induction l with
  | nil => simp [firstOccurs]
  | cons a l ih =>
      simp [firstOccurs, List.mem_filter, ih]
      tauto

theorem nodup_firstOccurs (l : List String) : (firstOccurs l).Nodup := by
  induction l with
  | nil => simp [firstOccurs]
  | cons a l ih =>
      simp only [firstOccurs, List.nodup_cons]
      refine ⟨?_, ih.filter _⟩
      intro hmem
      have := (List.mem_filter.mp hmem).2
      simp at this

theorem firstOccurs_snoc (l : List String) (n : String) :
    firstOccurs (l ++ [n]) = if n ∈ l then firstOccurs l else firstOccurs l ++ [n] := by
  induction l with
  | nil => simp [firstOccurs]
  | cons a l ih =>
      by_cases hn : n ∈ l
      · have hmem : n ∈ a :: l := List.mem_cons_of_mem a hn
        simp only [List.cons_append, firstOccurs, List.append_eq, ih, if_pos hn, if_pos hmem]
      · by_cases hna : n = a
        · subst hna
          have hmem : n ∈ n :: l := List.mem_cons_self n l
          simp only [List.cons_append, firstOccurs, List.append_eq, ih, if_neg hn,
            if_pos hmem, List.filter_append]
          simp
        · have hmem : n ∉ a :: l := by simp [hna, hn]
          simp only [List.cons_append, firstOccurs, List.append_eq, ih, if_neg hn,
            if_neg hmem, List.filter_append]
          simp [hna]

theorem dummyNames_append (p : String) (xs ys : List String) (k : Nat) :
    dummyNames p (xs ++ ys) k = dummyNames p xs k ++ dummyNames p ys (k + xs.length) := by
  induction xs generalizing k with
  | nil => simp [dummyNames]
  | cons x xs ih =>
      simp only [List.cons_append, dummyNames, List.append_eq, ih, List.length_cons]
      have h2 : k + (xs.length + 1) = k + 1 + xs.length := by omega
      rw [h2]

theorem dictKeys_dummyNames (p : String) (xs : List String) (k : Nat) :
    dictKeys (dummyNames p xs k) = xs := by
  induction xs generalizing k with
  | nil => simp [dummyNames, dictKeys]
  | cons x xs ih =>
      have h2 := ih (k + 1)
      simp only [dictKeys] at h2 ⊢
      simp [dummyNames, h2]

theorem dummyNames_val (p : String) (xs : List String) (k : Nat) (q : String × String)
    (hq : q ∈ dummyNames p xs k) : ∃ j : Nat, q.2 = p ++ toString j := by
  induction xs generalizing k with
  | nil => simp [dummyNames] at hq
  | cons x xs ih =>
      rcases List.mem_cons.mp hq with rfl | hq
      · exact ⟨k, rfl⟩
      · exact ih (k + 1) hq

theorem dictFind?_dummyNames_none (p : String) (xs : List String) (k : Nat) (n : String) :
    dictFind? (dummyNames p xs k) n = none ↔ n ∉ xs := by
  rw [dictFind?_eq_none_iff, dictKeys_dummyNames]

theorem scanColumnDef_mk (pt pc : List String) (e : SchemaExpr) :
    scanColumnDef (mkAnonState pt pc) e = mkAnonState pt (pc ++ colCand e) := by
  cases e with
  | otherExpr => simp [scanColumnDef, colCand]
  | columnDef n =>
      by_cases hn : n = ""
      · simp [scanColumnDef, colCand, hn, mkAnonState]
      · have hkeys : dictFind? (mkAnonState pt pc).column_mapping n = none ↔ n ∉ pc := by
          show dictFind? (dummyNames "c" (firstOccurs pc) 1) n = none ↔ n ∉ pc
          rw [dictFind?_dummyNames_none, mem_firstOccurs]
        by_cases hmem : n ∈ pc
        · have hcond : ¬ (n ≠ "" ∧ dictFind? (mkAnonState pt pc).column_mapping n = none) := by
            rintro ⟨h1, h2⟩
            exact (hkeys.mp h2) hmem
          simp only [scanColumnDef]
          rw [if_neg hcond]
          simp only [colCand, if_neg hn, mkAnonState, firstOccurs_snoc, if_pos hmem]
        · have hcond : n ≠ "" ∧ dictFind? (mkAnonState pt pc).column_mapping n = none :=
            ⟨hn, hkeys.mpr hmem⟩
          simp only [scanColumnDef]
          rw [if_pos hcond]
          simp only [colCand, if_neg hn, mkAnonState, firstOccurs_snoc, if_neg hmem,
            dummyNames_append, List.length_append]
          simp [dummyNames, Nat.add_comm]

theorem foldColumns_mk (es : List SchemaExpr) (pt pc : List String) :
    es.foldl scanColumnDef (mkAnonState pt pc) = mkAnonState pt (pc ++ (es.map colCand).flatten) := by
  induction es generalizing pc with
  | nil => simp
  | cons e es ih =>
      simp only [List.foldl_cons, scanColumnDef_mk, ih, List.map_cons, List.flatten_cons,
        List.append_assoc]

theorem scanStmt_mk (pt pc : List String) (s : Stmt) :
    scanStmt (mkAnonState pt pc) s = mkAnonState (pt ++ stmtTabs s) (pc ++ stmtCols s) := by
  cases s with
  | otherStmt => simp [scanStmt, stmtTabs, stmtCols]
  | createTable name es =>
      have hstep :
          (if name ≠ "" ∧ dictFind? (mkAnonState pt pc).table_mapping name = none then
            { mkAnonState pt pc with
              table_mapping := (mkAnonState pt pc).table_mapping ++
                [(name, "t" ++ toString (mkAnonState pt pc).table_counter)],
              table_counter := (mkAnonState pt pc).table_counter + 1 }
          else mkAnonState pt pc) = mkAnonState (pt ++ stmtTabs (.createTable name es)) pc := by
        by_cases hn : name = ""
        · simp [hn, mkAnonState, stmtTabs]
        · have hkeys : dictFind? (mkAnonState pt pc).table_mapping name = none ↔ name ∉ pt := by
            show dictFind? (dummyNames "t" (firstOccurs pt) 1) name = none ↔ name ∉ pt
            rw [dictFind?_dummyNames_none, mem_firstOccurs]
          by_cases hmem : name ∈ pt
          · rw [if_neg (by rintro ⟨h1, h2⟩; exact (hkeys.mp h2) hmem)]
            simp only [mkAnonState, stmtTabs, if_neg hn, firstOccurs_snoc, if_pos hmem]
          · rw [if_pos ⟨hn, hkeys.mpr hmem⟩]
            simp only [mkAnonState, stmtTabs, if_neg hn, firstOccurs_snoc, if_neg hmem,
              dummyNames_append, List.length_append]
            simp [dummyNames, Nat.add_comm]
      have hunfold : scanStmt (mkAnonState pt pc) (.createTable name es)
          = es.foldl scanColumnDef
            (if name ≠ "" ∧ dictFind? (mkAnonState pt pc).table_mapping name = none then
              { mkAnonState pt pc with
                table_mapping := (mkAnonState pt pc).table_mapping ++
                  [(name, "t" ++ toString (mkAnonState pt pc).table_counter)],
                table_counter := (mkAnonState pt pc).table_counter + 1 }
            else mkAnonState pt pc) := rfl
      rw [hunfold, hstep, foldColumns_mk]
      simp [stmtCols]

theorem foldStmts_mk (stmts : List Stmt) (pt pc : List String) :
    stmts.foldl scanStmt (mkAnonState pt pc)
      = mkAnonState (pt ++ allTabs stmts) (pc ++ allCols stmts) := by
  induction stmts generalizing pt pc with
  | nil => simp [allTabs, allCols]
  | cons s stmts ih =>
      simp only [List.foldl_cons, scanStmt_mk, ih, allTabs, allCols, List.map_cons,
        List.flatten_cons, List.append_assoc]

/-- Characterization of the discovery scan: the table mapping pairs the
distinct (truthy) table names in first-occurrence order with `t1, t2, …`,
and the column mapping pairs the distinct (truthy) column-definition names
in first-occurrence order — a single counter across all tables — with
`c1, c2, …`. -/
theorem anonScan_eq (stmts : List Stmt) :
    anonScan stmts = mkAnonState (allTabs stmts) (allCols stmts) := by
  have h0 : (⟨[], [], 1, 1⟩ : AnonState) = mkAnonState [] [] := rfl
  unfold anonScan
  rw [h0, foldStmts_mk]
  simp

/-! ## Lemmas about key normalization and dict merging -/

theorem mem_dictInsert_sub (d : List (String × String)) (k v : String) (p : String × String)
    (hp : p ∈ dictInsert d k v) : p ∈ d ∨ p = (k, v) := by
  induction d with
  | nil => simpa [dictInsert] using hp
  | cons q rest ih =>
      obtain ⟨k₀, v₀⟩ := q
      by_cases h0 : k₀ = k
      · subst h0
        simp only [dictInsert, if_pos rfl] at hp
        rcases List.mem_cons.mp hp with rfl | hp
        · exact Or.inr rfl
        · exact Or.inl (List.mem_cons_of_mem _ hp)
      · simp only [dictInsert, if_neg h0] at hp
        rcases List.mem_cons.mp hp with rfl | hp
        · exact Or.inl (List.mem_cons_self _ _)
        · rcases ih hp with h | h
          · exact Or.inl (List.mem_cons_of_mem _ h)
          · exact Or.inr h

theorem mem_normalizeKeys_aux (m : List (String × String)) :
    ∀ (acc : List (String × String)) (p : String × String),
      p ∈ m.foldl (fun d q => dictInsert d (upperStr q.1) q.2) acc →
      p ∈ acc ∨ ∃ q ∈ m, p.1 = upperStr q.1 ∧ p.2 = q.2 := by
  induction m with
  | nil =>
      intro acc p hp
      exact Or.inl hp
  | cons q m ih =>
      intro acc p hp
      simp only [List.foldl_cons] at hp
      rcases ih _ p hp with h | ⟨r, hr, h1, h2⟩
      · rcases mem_dictInsert_sub acc (upperStr q.1) q.2 p h with h | rfl
        · exact Or.inl h
        · exact Or.inr ⟨q, List.mem_cons_self _ _, rfl, rfl⟩
      · exact Or.inr ⟨r, List.mem_cons_of_mem _ hr, h1, h2⟩

/-- Every entry of a constructed mapping is an upper-cased caller key paired
with the (unchanged) caller value of one of the caller's entries. -/
theorem mem_normalizeKeys (m : List (String × String)) (p : String × String)
    (hp : p ∈ normalizeKeys m) : ∃ q ∈ m, p.1 = upperStr q.1 ∧ p.2 = q.2 := by
  rcases mem_normalizeKeys_aux m [] p hp with h | h
  · simp at h
  · exact h

theorem dictKeys_nodup_foldl (m : List (String × String)) :
    ∀ acc : List (String × String), (dictKeys acc).Nodup →
      (dictKeys (m.foldl (fun d q => dictInsert d (upperStr q.1) q.2) acc)).Nodup := by
  induction m with
  | nil => intro acc h; exact h
  | cons q m ih =>
      intro acc h
      simp only [List.foldl_cons]
      exact ih _ (dictKeys_nodup_insert acc (upperStr q.1) q.2 h)

theorem normalizeKeys_nodup (m : List (String × String)) :
    (dictKeys (normalizeKeys m)).Nodup :=
  dictKeys_nodup_foldl m [] (by simp [dictKeys])

/-- Appending a final caller entry makes its value the one stored under its
normalized key: last write wins. -/
theorem normalizeKeys_snoc (m : List (String × String)) (k v : String) :
    normalizeKeys (m ++ [(k, v)]) = dictInsert (normalizeKeys m) (upperStr k) v := by
  simp [normalizeKeys, List.foldl_append]

theorem dictFind?_merge (a b : List (String × String)) (hb : (dictKeys b).Nodup) (k : String) :
    dictFind? (dictMerge a b) k =
      match dictFind? b k with
      | some v => some v
      | none => dictFind? a k := by
  induction b generalizing a with
  | nil => simp [dictMerge, dictFind?]
  | cons q b ih =>
      obtain ⟨k₀, v₀⟩ := q
      have hnm : k₀ ∉ dictKeys b := (List.nodup_cons.mp hb).1
      have hnd := (List.nodup_cons.mp hb).2
      have hmerge : dictMerge a ((k₀, v₀) :: b) = dictMerge (dictInsert a k₀ v₀) b := rfl
      rw [hmerge, ih _ hnd]
      by_cases h0 : k₀ = k
      · subst h0
        have hfb : dictFind? b k₀ = none := (dictFind?_eq_none_iff b k₀).mpr hnm
        simp [hfb, dictFind?, dictFind?_insert]
      · have hne : ¬ k = k₀ := fun hh => h0 hh.symm
        cases hfb : dictFind? b k <;>
          simp [hfb, dictFind?, h0, dictFind?_insert, hne]

theorem dictKeys_nodup_merge (a b : List (String × String))
    (ha : (dictKeys a).Nodup) : (dictKeys (dictMerge a b)).Nodup := by
  induction b generalizing a with
  | nil => exact ha
  | cons q b ih => exact ih _ (dictKeys_nodup_insert a q.1 q.2 ha)

/-- A `t`-prefixed dummy name is never a `c`-prefixed dummy name. -/
theorem tPfx_ne_cPfx (x y : String) : ("t" ++ x) ≠ ("c" ++ y) := by
  intro h
  have hd := congrArg String.data h
  simp only [String.data_append] at hd
  have : 't' = 'c' := (List.cons_eq_cons.mp hd).1
  exact absurd this (by decide)

/-! ## Claim theorems -/

theorem fallback_mapping_empty (s : String) :
    fallback_mapping (SQLMapper.init [] []) s = some s := rfl

/-- C1 (amended): for a row whose database id has no entry in the schemas
data, the driver builds an empty mapper; the textual (leetcode) driver's
mapped output is then byte-identical to the input, and the structural
(bird) driver performs no substitution — the parse tree passes through both
rewrite passes unchanged — so its output is exactly the re-serialization of
the unmodified parse tree (which need not be byte-identical to the input
text). -/
theorem c1_empty_mapping_identity (schemas_data : Schemas) (r : Row) (s : String)
    (parse : String → Option Expr) (serialize : Expr → Option String) (t : Expr)
    (h1 : assocFind? schemas_data r.dbid = none) (h2 : r.q1 = some s) (h3 : s ≠ "") :
    (process_row_leet schemas_data r).q1_mapped = some s ∧
    (process_row_bird parse serialize schemas_data r).q1_mapped = (parse s).bind serialize ∧
    bird_map_tree (rowSQLMapper schemas_data r.dbid) t = t := by
  have hM : rowSQLMapper schemas_data r.dbid = SQLMapper.init [] [] := by
    simp [rowSQLMapper, h1]
  refine ⟨?_, ?_, ?_⟩
  · simp [process_row_leet, hM, mapField, h2, h3, leet_map_sql_query, fallback_mapping_empty]
  · cases hp : parse s with
    | none => simp [process_row_bird, hM, mapField, h2, h3, map_sql_query, hp]
    | some t' =>
        simp [process_row_bird, hM, mapField, h2, h3, map_sql_query, hp, bird_map_tree_empty]
  · rw [hM]
    exact bird_map_tree_empty t

/-- C1 witness: concrete instantiation of `c1_empty_mapping_identity`. -/
theorem c1_empty_mapping_identity_witness :
    (process_row_leet [] ⟨"db1", some "q", none⟩).q1_mapped = some "q" ∧
    (process_row_bird demoParse demoSerialize [] ⟨"db1", some "q", none⟩).q1_mapped
      = (demoParse "q").bind demoSerialize ∧
    bird_map_tree (rowSQLMapper [] "db1") demoParseTree = demoParseTree :=
  c1_empty_mapping_identity [] ⟨"db1", some "q", none⟩ "q" demoParse demoSerialize
    demoParseTree rfl rfl (by decide)

/-- C1 counterexample: with the database id absent from the schemas data
and the non-empty query `select * from t`, the structural (bird) driver's
mapped output is the collaborator's re-serialization `SELECT * FROM t` —
sqlglot's generator emits canonical upper-case keywords — which is *not*
identical to the input query text, refuting the claim as stated for the
structural driver. -/
theorem c1_counterexample :
    assocFind? ([] : Schemas) "db9" = none ∧
    (⟨"db9", some "select * from t", none⟩ : Row).q1 = some "select * from t" ∧
    "select * from t" ≠ "" ∧
    (process_row_bird demoParse demoSerialize [] ⟨"db9", some "select * from t", none⟩).q1_mapped
      = some "SELECT * FROM t" ∧
    some "SELECT * FROM t" ≠ some "select * from t" := by
  refine ⟨rfl, rfl, by decide, by decide, by decide⟩

/-- C2: the structural mapper rewrites a qualified column access `T.C` by
mapping the qualifier and the column name independently (`lookupOr` is the
identity-defaulted lookup, so the three claim cases `T'.C`, `T.C'`, `T'.C'`
are its case analysis), and qualifier lookups always use the original
qualifier name: the table pass fixes `Column` nodes, and the two
whole-tree passes fuse into a single per-node pass over original nodes. -/
theorem c2_qualified_column_independent (M : SQLMapper) (t : Expr) (n q : String)
    (hq : q ≠ "") :
    bird_map_tree M t = t.transform (fun e => transform_column M (transform_table M e)) ∧
    transform_table M (.column n q) = .column n q ∧
    transform_column M (transform_table M (.column n q))
      = .column (lookupOr M.column_mapping n) (lookupOr M.table_mapping q) := by
  refine ⟨bird_map_tree_fused M t, rfl, ?_⟩
  simp only [transform_table, transform_column, lookupOr, if_pos hq]

/-- C2 witness: concrete instantiation of `c2_qualified_column_independent`
with both names mapped. -/
theorem c2_qualified_column_independent_witness :
    bird_map_tree (SQLMapper.init [("T", "t1")] [("C", "c1")])
        (.node (.table "T") (.column "C" "T"))
      = (Expr.node (.table "T") (.column "C" "T")).transform
          (fun e =>
            transform_column (SQLMapper.init [("T", "t1")] [("C", "c1")])
              (transform_table (SQLMapper.init [("T", "t1")] [("C", "c1")]) e)) ∧
    transform_table (SQLMapper.init [("T", "t1")] [("C", "c1")]) (.column "C" "T")
      = .column "C" "T" ∧
    transform_column (SQLMapper.init [("T", "t1")] [("C", "c1")])
        (transform_table (SQLMapper.init [("T", "t1")] [("C", "c1")]) (.column "C" "T"))
      = .column (lookupOr (SQLMapper.init [("T", "t1")] [("C", "c1")]).column_mapping "C")
          (lookupOr (SQLMapper.init [("T", "t1")] [("C", "c1")]).table_mapping "T") :=
  c2_qualified_column_independent (SQLMapper.init [("T", "t1")] [("C", "c1")])
    (.node (.table "T") (.column "C" "T")) "C" "T" (by decide)

/-- C3 (amended): in the structural (bird) driver a syntactically invalid
non-empty query makes the mapping step return Failure (`none`) and leaves
the derived field empty, and both drivers process a batch row by row, so a
failing row never aborts the batch — the remaining rows are processed
unchanged.  (In the textual (leetcode) driver the mapping step never
parses, so an invalid query still produces a substituted output; see the
counterexample.) -/
theorem c3_parse_failure_is_local (parse : String → Option Expr)
    (serialize : Expr → Option String) (schemas_data : Schemas) (r : Row) (s : String)
    (rest : List Row) (h2 : r.q1 = some s) (h3 : s ≠ "") (hp : parse s = none) :
    map_sql_query parse serialize (rowSQLMapper schemas_data r.dbid) s = none ∧
    (process_row_bird parse serialize schemas_data r).q1_mapped = none ∧
    process_bird_csv parse serialize schemas_data (r :: rest)
      = process_row_bird parse serialize schemas_data r
          :: process_bird_csv parse serialize schemas_data rest ∧
    leet_process_bird_csv schemas_data (r :: rest)
      = process_row_leet schemas_data r :: leet_process_bird_csv schemas_data rest := by
  refine ⟨by simp [map_sql_query, hp], ?_, rfl, rfl⟩
  simp [process_row_bird, mapField, h2, h3, map_sql_query, hp]

/-- C3 witness: concrete instantiation of `c3_parse_failure_is_local`. -/
theorem c3_parse_failure_is_local_witness :
    map_sql_query demoParse demoSerialize (rowSQLMapper [] "d1") "((" = none ∧
    (process_row_bird demoParse demoSerialize [] ⟨"d1", some "((", none⟩).q1_mapped = none ∧
    process_bird_csv demoParse demoSerialize [] [⟨"d1", some "((", none⟩]
      = [process_row_bird demoParse demoSerialize [] ⟨"d1", some "((", none⟩] ∧
    leet_process_bird_csv [] [⟨"d1", some "((", none⟩]
      = [process_row_leet [] ⟨"d1", some "((", none⟩] :=
  c3_parse_failure_is_local demoParse demoSerialize [] ⟨"d1", some "((", none⟩ "((" []
    rfl (by decide) (by decide)

/-- C3 counterexample: `((` is not valid SQL (the structural dialect parser
rejects it), yet the leetcode driver's mapping step — which never parses —
returns a substituted text and populates the derived field instead of
leaving it empty, refuting the claim as stated for the leetcode driver. -/
theorem c3_counterexample :
    demoParse "((" = none ∧
    (process_row_leet [] ⟨"db1", some "((", none⟩).q1_mapped = some "((" := by
  refine ⟨by decide, rfl⟩

/-- C4: on the spec's example schema the discovery scan assigns
`CHESTS→t1, BOXES→t2` and — with one column counter shared across both
tables — `CHEST_ID→c1, APPLE_COUNT→c2, BOX_ID→c3` (`CHEST_ID` keeps `c1`
on its second appearance in `BOXES`), the merged mapping returned by the
anonymizer contains exactly those entries; and in general both mappings
pair the distinct names in first-occurrence order of a single left-to-right
scan with consecutive counter-generated dummy names starting at 1. -/
theorem c4_schema_anonymizer_counters (stmts : List Stmt) :
    (anonScan demoSchemaStmts).table_mapping = [("CHESTS", "t1"), ("BOXES", "t2")] ∧
    (anonScan demoSchemaStmts).column_mapping
      = [("CHEST_ID", "c1"), ("APPLE_COUNT", "c2"), ("BOX_ID", "c3")] ∧
    (extract_and_map_schema demoSchemaStmts demoSchemaText).2
      = [("CHESTS", "t1"), ("BOXES", "t2"), ("CHEST_ID", "c1"), ("APPLE_COUNT", "c2"),
         ("BOX_ID", "c3")] ∧
    (anonScan stmts).table_mapping = dummyNames "t" (firstOccurs (allTabs stmts)) 1 ∧
    (anonScan stmts).column_mapping = dummyNames "c" (firstOccurs (allCols stmts)) 1 := by
  refine ⟨by decide, by decide, by decide, ?_, ?_⟩
  · rw [anonScan_eq]
    rfl
  · rw [anonScan_eq]
    rfl

/-- C5: mapping `SELECT AB FROM T` under table originals `A→x1`, `AB→x2`
yields exactly `SELECT x2 FROM T` — containing `x2` and no corrupted
`x1B` — and in general the fallback substitutes each mapping's entries in
descending order of original-name length (`sortLenDesc` is a permutation
sorted by key length descending). -/
theorem c5_fallback_length_descending (m : List (String × String)) :
    leet_map_sql_query (SQLMapper.init [("A", "x1"), ("AB", "x2")] []) "SELECT AB FROM T"
      = some "SELECT x2 FROM T" ∧
    ¬ (∃ a b, "SELECT x2 FROM T".data = a ++ "x1B".data ++ b) ∧
    List.Pairwise (fun a b => b.1.length ≤ a.1.length) (sortLenDesc m) ∧
    (sortLenDesc m).Perm m := by
  refine ⟨by decide, ?_, sortLenDesc_pairwise m, sortLenDesc_perm m⟩
  rw [containsSeg_iff]
  decide

/-- C6: `extract_tables_and_columns` parses once and never raises: on parse
failure it returns two empty sets, and on success the two returned
(deduplicated) sets contain exactly the upper-cased names of the `Table`
and `Column` nodes occurring anywhere in the tree (any nesting depth). -/
theorem c6_extract_contract (parse : String → Option Expr) (qf qs : String) (t : Expr)
    (u : String) (hf : parse qf = none) (hs : parse qs = some t) :
    extract_tables_and_columns parse qf = (∅, ∅) ∧
    (u ∈ (extract_tables_and_columns parse qs).1 ↔ ∃ n, OccursTable n t ∧ u = upperStr n) ∧
    (u ∈ (extract_tables_and_columns parse qs).2 ↔ ∃ n, OccursColumn n t ∧ u = upperStr n) := by
  refine ⟨by simp [extract_tables_and_columns, hf], ?_, ?_⟩
  · simp only [extract_tables_and_columns, hs, List.mem_toFinset, List.mem_map]
    constructor
    · rintro ⟨n, hn, rfl⟩
      exact ⟨n, (mem_rawTables_iff t n).mp hn, rfl⟩
    · rintro ⟨n, hn, rfl⟩
      exact ⟨n, (mem_rawTables_iff t n).mpr hn, rfl⟩
  · simp only [extract_tables_and_columns, hs, List.mem_toFinset, List.mem_map]
    constructor
    · rintro ⟨n, hn, rfl⟩
      exact ⟨n, (mem_rawColumns_iff t n).mp hn, rfl⟩
    · rintro ⟨n, hn, rfl⟩
      exact ⟨n, (mem_rawColumns_iff t n).mpr hn, rfl⟩

/-- C6 witness: concrete instantiation of `c6_extract_contract`. -/
theorem c6_extract_contract_witness :
    extract_tables_and_columns demoParse "((" = (∅, ∅) ∧
    (("T" : String) ∈ (extract_tables_and_columns demoParse "select * from t").1 ↔
      ∃ n, OccursTable n demoParseTree ∧ "T" = upperStr n) ∧
    (("T" : String) ∈ (extract_tables_and_columns demoParse "select * from t").2 ↔
      ∃ n, OccursColumn n demoParseTree ∧ "T" = upperStr n) :=
  c6_extract_contract demoParse "((" "select * from t" demoParseTree "T" (by decide) rfl

/-- C7: the structural mapper's outcome is binary — either a complete
re-serialization of the fully transformed tree, or the single failure
outcome `none`, produced both by parse errors and by serialization
failures; no partial result exists. -/
theorem c7_single_failure_outcome (parse : String → Option Expr)
    (serialize : Expr → Option String) (M : SQLMapper) (q : String) :
    (∃ s t, parse q = some t ∧ serialize (bird_map_tree M t) = some s ∧
        map_sql_query parse serialize M q = some s) ∨
    (map_sql_query parse serialize M q = none ∧
      (parse q = none ∨ ∃ t, parse q = some t ∧ serialize (bird_map_tree M t) = none)) := by
  cases hp : parse q with
  | none => exact Or.inr ⟨by simp [map_sql_query, hp], Or.inl rfl⟩
  | some t =>
      cases hs : serialize (bird_map_tree M t) with
      | none => exact Or.inr ⟨by simp [map_sql_query, hp, hs], Or.inr ⟨t, rfl, hs⟩⟩
      | some s => exact Or.inl ⟨s, t, rfl, hs, by simp [map_sql_query, hp, hs]⟩

/-- C8: the anonymizer's final text substitution applies the table pass to
the original schema text and the column pass afterwards, each pass sorted
longest-original-first and covering every entry; matching is case-sensitive
word-boundary matching — a text with no exact-case occurrence of a key is
left unchanged, and in particular the case-differing occurrence `abc` of
the discovered name `ABC` is not replaced. -/
theorem c8_schema_substitution (stmts : List Stmt) (text key repl : String) (t : List Char)
    (h : ¬ ∃ a b, t = a ++ key.data ++ b) :
    (extract_and_map_schema stmts text).1
      = ⟨schemaSubstPass (anonScan stmts).column_mapping
          (schemaSubstPass (anonScan stmts).table_mapping text.data)⟩ ∧
    List.Pairwise (fun a b => b.1.length ≤ a.1.length)
      (sortLenDesc (anonScan stmts).table_mapping) ∧
    List.Pairwise (fun a b => b.1.length ≤ a.1.length)
      (sortLenDesc (anonScan stmts).column_mapping) ∧
    (sortLenDesc (anonScan stmts).table_mapping).Perm (anonScan stmts).table_mapping ∧
    (sortLenDesc (anonScan stmts).column_mapping).Perm (anonScan stmts).column_mapping ∧
    substWB false key repl t = t ∧
    substWB false "ABC" "t1" "create table abc (x int)".data
      = "create table abc (x int)".data :=
  ⟨rfl, sortLenDesc_pairwise _, sortLenDesc_pairwise _, sortLenDesc_perm _,
   sortLenDesc_perm _, substWB_no_occ key repl t h, by decide⟩

/-- C8 witness: concrete instantiation of `c8_schema_substitution`. -/
theorem c8_schema_substitution_witness :
    (extract_and_map_schema demoSchemaStmts demoSchemaText).1
      = ⟨schemaSubstPass (anonScan demoSchemaStmts).column_mapping
          (schemaSubstPass (anonScan demoSchemaStmts).table_mapping demoSchemaText.data)⟩ ∧
    List.Pairwise (fun a b => b.1.length ≤ a.1.length)
      (sortLenDesc (anonScan demoSchemaStmts).table_mapping) ∧
    List.Pairwise (fun a b => b.1.length ≤ a.1.length)
      (sortLenDesc (anonScan demoSchemaStmts).column_mapping) ∧
    (sortLenDesc (anonScan demoSchemaStmts).table_mapping).Perm
      (anonScan demoSchemaStmts).table_mapping ∧
    (sortLenDesc (anonScan demoSchemaStmts).column_mapping).Perm
      (anonScan demoSchemaStmts).column_mapping ∧
    substWB false "K" "r" "vw".data = "vw".data ∧
    substWB false "ABC" "t1" "create table abc (x int)".data
      = "create table abc (x int)".data :=
  c8_schema_substitution demoSchemaStmts demoSchemaText "K" "r" "vw".data
    (by rw [containsSeg_iff]; decide)

/-- C9: `SQLMapper.__init__` upper-cases every key while values keep the
caller's casing; keys that collide after normalization are accepted with
the later entry's value winning, and the constructed mapping never holds
two keys equal up to case (its keys are pairwise distinct and fixed by
upper-casing). -/
theorem c9_key_normalization (m : List (String × String)) (p : String × String)
    (k v : String) (hp : p ∈ normalizeKeys m) :
    (∃ q ∈ m, p.1 = upperStr q.1 ∧ p.2 = q.2) ∧
    upperStr p.1 = p.1 ∧
    List.Pairwise (fun a b => upperStr a.1 ≠ upperStr b.1) (normalizeKeys m) ∧
    dictFind? (normalizeKeys (m ++ [(k, v)])) (upperStr k) = some v := by
  refine ⟨mem_normalizeKeys m p hp, ?_, ?_, ?_⟩
  · obtain ⟨q, hq, h1, h2⟩ := mem_normalizeKeys m p hp
    rw [h1, upperStr_idem]
  · have hkeys : List.Pairwise (fun a b : String × String => a.1 ≠ b.1) (normalizeKeys m) :=
      List.pairwise_map.mp (normalizeKeys_nodup m)
    refine hkeys.imp_of_mem ?_
    intro a b ha hb hne
    obtain ⟨qa, _, ha1, _⟩ := mem_normalizeKeys m a ha
    obtain ⟨qb, _, hb1, _⟩ := mem_normalizeKeys m b hb
    rw [ha1, hb1, upperStr_idem, upperStr_idem]
    exact ha1 ▸ hb1 ▸ hne
  · rw [normalizeKeys_snoc, dictFind?_insert]
    simp

/-- C9 witness: concrete instantiation of `c9_key_normalization` on caller
keys differing only in case. -/
theorem c9_key_normalization_witness :
    (∃ q ∈ [("a", "1"), ("A", "2")], ("A", "2").1 = upperStr q.1 ∧ ("A", "2").2 = q.2) ∧
    upperStr ("A", "2").1 = ("A", "2").1 ∧
    List.Pairwise (fun a b => upperStr a.1 ≠ upperStr b.1)
      (normalizeKeys [("a", "1"), ("A", "2")]) ∧
    dictFind? (normalizeKeys ([("a", "1"), ("A", "2")] ++ [("b", "3")])) (upperStr "b")
      = some "3" :=
  c9_key_normalization [("a", "1"), ("A", "2")] ("A", "2") "b" "3" (by decide)

/-- C10: when the same exact string is discovered both as a table name and
as a column name, the merged mapping returned by the anonymizer associates
it with its column dummy name — the column entries overwrite the table
entries in `{**tables, **columns}` — and the pair binding the string to its
table dummy name is absent from the returned mapping. -/
theorem c10_merge_column_wins (stmts : List Stmt) (text : String) (s tv cv : String)
    (ht : dictFind? (anonScan stmts).table_mapping s = some tv)
    (hc : dictFind? (anonScan stmts).column_mapping s = some cv) :
    dictFind? (extract_and_map_schema stmts text).2 s = some cv ∧
    (s, tv) ∉ (extract_and_map_schema stmts text).2 := by
  have hTm : (anonScan stmts).table_mapping = dummyNames "t" (firstOccurs (allTabs stmts)) 1 := by
    rw [anonScan_eq]
    rfl
  have hCm : (anonScan stmts).column_mapping
      = dummyNames "c" (firstOccurs (allCols stmts)) 1 := by
    rw [anonScan_eq]
    rfl
  have hTkeys : (dictKeys (anonScan stmts).table_mapping).Nodup := by
    rw [hTm, dictKeys_dummyNames]
    exact nodup_firstOccurs _
  have hCkeys : (dictKeys (anonScan stmts).column_mapping).Nodup := by
    rw [hCm, dictKeys_dummyNames]
    exact nodup_firstOccurs _
  have hmerged : (extract_and_map_schema stmts text).2
      = dictMerge (anonScan stmts).table_mapping (anonScan stmts).column_mapping := rfl
  have hfind : dictFind? (extract_and_map_schema stmts text).2 s = some cv := by
    rw [hmerged, dictFind?_merge _ _ hCkeys, hc]
  refine ⟨hfind, ?_⟩
  intro hmem
  have hmnd : (dictKeys (extract_and_map_schema stmts text).2).Nodup := by
    rw [hmerged]
    exact dictKeys_nodup_merge _ _ hTkeys
  have := (mem_iff_dictFind? _ s tv hmnd).mp hmem
  rw [hfind] at this
  have hcv : cv = tv := by injection this
  obtain ⟨j, hj⟩ := dummyNames_val "t" (firstOccurs (allTabs stmts)) 1 (s, tv)
    (by rw [← hTm]; exact dictFind?_mem _ _ _ ht)
  obtain ⟨j', hj'⟩ := dummyNames_val "c" (firstOccurs (allCols stmts)) 1 (s, cv)
    (by rw [← hCm]; exact dictFind?_mem _ _ _ hc)
  simp only at hj hj'
  exact tPfx_ne_cPfx (toString j) (toString j') (by rw [← hj, ← hj', hcv])

/-- C10 witness: concrete instantiation of `c10_merge_column_wins` on a
schema whose table `A` has a column also named `A`. -/
theorem c10_merge_column_wins_witness :
    dictFind? (extract_and_map_schema [.createTable "A" [.columnDef "A"]] "A").2 "A"
      = some "c1" ∧
    ("A", "t1") ∉ (extract_and_map_schema [.createTable "A" [.columnDef "A"]] "A").2 :=
  c10_merge_column_wins [.createTable "A" [.columnDef "A"]] "A" "A" "t1" "c1"
    (by decide) (by decide)
